import Mathlib

/-!
# ClaudeInterConnect: the audio bridge of `PluginProcessor.cpp`

A shallow embedding of `ClaudeInterConnectAudioProcessor` (files
`Source/PluginProcessor.h` and `Source/PluginProcessor.cpp`).

* Samples are values of a type `α` with a zero (`0.0f`) and a float addition
  (`SampleAdd`), of which no law is assumed.  Copying a sample is the identity.
  `F32` is the `float` itself: IEEE-754 binary32 by bit fields, with its addition in
  round-to-nearest, with or without the flush-to-zero and denormals-are-zero modes
  that `juce::ScopedNoDenormals` sets.
* Memory is explicit.  A block of floats is a list; an access at an index outside
  its list is a `Fault` naming the region, and a function that performs one
  returns `Except.error`.  Nothing is clamped by the model: the bounds that hold
  are the ones the code establishes.
* Memory whose contents C++ leaves unspecified (a fresh `MemoryBlock`, an
  `AudioBuffer` after `setSize`) is filled from a `junk` argument.
* The object state is passed explicitly: `processBlock` returns the new
  processor together with the buffer the host gets back.
* Sizes, counts and indices (`int`, `size_t`) are natural numbers; audio block sizes
  are far below the range where the C++ types would wrap.
* The private flag `isClear` of a `juce::AudioBuffer` is not a field of the model:
  it is observable in `addFrom` only (copy into a buffer flagged clear, add
  otherwise), which takes the flag and returns it; `clear()` leaves it set.
-/

namespace ClaudeInterConnect

/-! ## Memory model -/

/-- The three buffers the processor touches. -/
inductive Region where
  /-- The member `sharedAudioBuffer`. -/
  | staging
  /-- The host's `AudioBuffer` passed to `processBlock`. -/
  | block
  /-- The bytes of a `MemoryBlock`, seen through a `float*`. -/
  | message
  deriving DecidableEq, Repr

/-- An access outside a buffer: the region, the channel and the sample index (for a
`MemoryBlock` the channel is `0` and the index counts floats). -/
structure Fault where
  region : Region
  channel : Nat
  index : Nat
  deriving DecidableEq, Repr

/-- The C loop `for (i = 0; i < n; ++i) body`, threading the state and stopping at
the first fault.  Every loop bound in the source is unchanged by its loop body, so
`n` is read once. -/
def forLoop {σ : Type} : Nat → (Nat → σ → Except Fault σ) → σ → Except Fault σ
  | 0, _, s => .ok s
  | n + 1, body, s =>
    match forLoop n body s with
    | .ok s' => body n s'
    | .error e => .error e

/-- Constant `sizeof(float)`. -/
def sizeofFloat : Nat := 4

/-! ## Samples: `float` and its addition -/

/-- Float addition of samples.  `noDenormals` tells whether the thread runs with
flush-to-zero and denormals-are-zero set, as inside a `juce::ScopedNoDenormals`
scope. -/
class SampleAdd (α : Type) where
  add : Bool → α → α → α

/-- A `float`: an IEEE-754 binary32 value by its sign bit, its 8-bit biased exponent
and its 23-bit fraction. -/
structure F32 where
  sign : Bool
  exponent : Fin 256
  fraction : Fin 8388608
  deriving DecidableEq, Repr

namespace F32

/-- The value `+0.0f`. -/
def posZero : F32 := ⟨false, 0, 0⟩

/-- The value `-0.0f`. -/
def negZero : F32 := ⟨true, 0, 0⟩

/-- The value `1.0f`. -/
def one : F32 := ⟨false, 127, 0⟩

/-- The value `2.0f`. -/
def two : F32 := ⟨false, 128, 0⟩

/-- The value `0.5f`. -/
def half : F32 := ⟨false, 126, 0⟩

/-- The smallest positive denormal, `2^-149`. -/
def minDenormal : F32 := ⟨false, 0, 1⟩

/-- A NaN: exponent all ones, fraction not zero. -/
def isNaN (x : F32) : Bool := x.exponent.val == 255 && x.fraction.val != 0

/-- An infinity: exponent all ones, fraction zero. -/
def isInf (x : F32) : Bool := x.exponent.val == 255 && x.fraction.val == 0

/-- A zero of either sign. -/
def isZero (x : F32) : Bool := x.exponent.val == 0 && x.fraction.val == 0

/-- A denormal: exponent zero, fraction not zero. -/
def isDenormal (x : F32) : Bool := x.exponent.val == 0 && x.fraction.val != 0

/-- Denormals-are-zero: with `noDenormals` a denormal operand is read as the zero of
its sign. -/
def daz (noDenormals : Bool) (x : F32) : F32 :=
  if noDenormals && x.isDenormal then ⟨x.sign, 0, 0⟩ else x

/-- The quiet form of a NaN: the top fraction bit set. -/
def quiet (x : F32) : F32 :=
  ⟨x.sign, x.exponent,
    ⟨(x.fraction.val % 4194304 + 4194304) % 8388608, Nat.mod_lt _ (by decide)⟩⟩

/-- The NaN an invalid operation produces. -/
def defaultNaN : F32 := ⟨true, 255, 4194304⟩

/-- A finite value as a whole multiple of `2^-149`. -/
def scaled (x : F32) : Int :=
  let significand : Nat := if x.exponent.val = 0 then x.fraction.val else 8388608 + x.fraction.val
  let magnitude : Nat := significand * 2 ^ (x.exponent.val - 1)
  if x.sign then -(magnitude : Int) else (magnitude : Int)

/-- The nonzero value `v * 2^-149` rounded to nearest, ties to even; a denormal result
is exact and, with `noDenormals`, flushed to the zero of its sign. -/
def round (noDenormals : Bool) (v : Int) : F32 :=
  let sign := decide (v < 0)
  let n := v.natAbs
  let top := Nat.log2 n
  if top < 23 then
    if noDenormals then ⟨sign, 0, 0⟩ else ⟨sign, 0, ⟨n % 8388608, Nat.mod_lt _ (by decide)⟩⟩
  else
    let shift := top - 23
    let q := n / 2 ^ shift
    let rest := n % 2 ^ shift
    let q := if 2 * rest > 2 ^ shift ∨ (2 * rest = 2 ^ shift ∧ q % 2 = 1) then q + 1 else q
    let shift := if q = 16777216 then shift + 1 else shift
    let q := if q = 16777216 then 8388608 else q
    if shift + 1 ≥ 255 then ⟨sign, 255, 0⟩
    else ⟨sign, ⟨(shift + 1) % 256, Nat.mod_lt _ (by decide)⟩,
      ⟨(q - 8388608) % 8388608, Nat.mod_lt _ (by decide)⟩⟩

/-- Float addition `a + b` in round-to-nearest.  A NaN operand gives the quiet form of
the first NaN operand (the SSE rule); a sum that has a zero operand is the other
operand; the other finite sums are rounded from the exact value. -/
def add (noDenormals : Bool) (a b : F32) : F32 :=
  let a := a.daz noDenormals
  let b := b.daz noDenormals
  if a.isNaN then a.quiet
  else if b.isNaN then b.quiet
  else if a.isInf then (if b.isInf && (a.sign != b.sign) then defaultNaN else a)
  else if b.isInf then b
  else if a.isZero && b.isZero then ⟨a.sign && b.sign, 0, 0⟩
  else if a.isZero then b
  else if b.isZero then a
  else
    let v := a.scaled + b.scaled
    if v = 0 then posZero else round noDenormals v

end F32

instance : Zero F32 := ⟨F32.posZero⟩

instance : SampleAdd F32 := ⟨F32.add⟩

/-- Whole numbers as sample values, for examples and paths that only move samples:
their addition is exact in either mode. -/
instance : SampleAdd Int := ⟨fun _ a b => a + b⟩

/-! ## `juce::AudioBuffer<float>` -/

/-- A `juce::AudioBuffer`: `numSamples` is its `size`, `channels` holds one plane of
samples per channel. -/
structure AudioBuffer (α : Type) where
  numSamples : Nat
  channels : List (List α)
  deriving DecidableEq, Repr

namespace AudioBuffer

variable {α : Type}

/-- Member `getNumChannels()`. -/
def getNumChannels (b : AudioBuffer α) : Nat := b.channels.length

/-- Member `getNumSamples()`. -/
def getNumSamples (b : AudioBuffer α) : Nat := b.numSamples

/-- Every channel plane holds exactly `numSamples` samples. -/
def WF (b : AudioBuffer α) : Prop := ∀ p ∈ b.channels, p.length = b.numSamples

instance (b : AudioBuffer α) : Decidable b.WF :=
  inferInstanceAs (Decidable (∀ p ∈ b.channels, p.length = b.numSamples))

/-- The sample at `(channel, index)`, when both are inside the buffer. -/
def sample? (b : AudioBuffer α) (channel index : Nat) : Option α :=
  match b.channels[channel]? with
  | some p => p[index]?
  | none => none

/-- Reading `getReadPointer(channel)[index]`. -/
def read (r : Region) (b : AudioBuffer α) (channel index : Nat) : Except Fault α :=
  match b.sample? channel index with
  | some v => .ok v
  | none => .error ⟨r, channel, index⟩

/-- Writing `getWritePointer(channel)[index] = v`. -/
def write (r : Region) (b : AudioBuffer α) (channel index : Nat) (v : α) :
    Except Fault (AudioBuffer α) :=
  match b.channels[channel]? with
  | some p =>
    if index < p.length then .ok { b with channels := b.channels.set channel (p.set index v) }
    else .error ⟨r, channel, index⟩
  | none => .error ⟨r, channel, index⟩

/-- Member `setSize(newNumChannels, newNumSamples)` with its default flags: a buffer
that already has the size is kept, otherwise the storage is reallocated and its
contents are unspecified (`junk`). -/
def setSize (junk : Nat → Nat → α) (b : AudioBuffer α) (newNumChannels newNumSamples : Nat) :
    AudioBuffer α :=
  if b.numSamples = newNumSamples ∧ b.getNumChannels = newNumChannels then b
  else
    { numSamples := newNumSamples
      channels := (List.range newNumChannels).map fun c => (List.range newNumSamples).map (junk c) }

/-- Member `clear()`: `size` zeros in every channel; afterwards the buffer is flagged
clear. -/
def clear [Zero α] (b : AudioBuffer α) : AudioBuffer α :=
  { b with channels := b.channels.map fun _ => List.replicate b.numSamples 0 }

/-- Member `addFrom(destChannel, destStartSample, source, numSamples)` on a buffer
whose flag is `isClear`; the result carries the flag afterwards.  Nothing happens for
`numSamples = 0`.  Into a buffer flagged clear the samples are copied
(`FloatVectorOperations::copy`) and the flag is reset; otherwise
`dest[destStartSample + i] += source[i]` (`FloatVectorOperations::add`), in the float
mode `noDenormals` of the calling thread.  The destination is in region `r`; `source`
is the pointer being read. -/
def addFrom [SampleAdd α] (noDenormals : Bool) (r : Region) (b : AudioBuffer α)
    (isClear : Bool) (destChannel destStartSample : Nat) (source : Nat → Except Fault α)
    (numSamples : Nat) : Except Fault (AudioBuffer α × Bool) :=
  if numSamples > 0 then
    if isClear then do
      let b ← forLoop numSamples (fun i b => do
        let s ← source i
        b.write r destChannel (destStartSample + i) s) b
      pure (b, false)
    else do
      let b ← forLoop numSamples (fun i b => do
        let s ← source i
        let d ← b.read r destChannel (destStartSample + i)
        b.write r destChannel (destStartSample + i) (SampleAdd.add noDenormals d s)) b
      pure (b, isClear)
  else
    pure (b, isClear)

end AudioBuffer

/-! ## `juce::MemoryBlock` seen through a `float*` -/

/-- A `juce::MemoryBlock` as `static_cast<float*>(getData())` sees it: the whole
4-byte cells in address order, and the number of bytes left over after the last whole
cell.  The left-over bytes carry no float and their contents are not represented. -/
structure MemoryBlock (α : Type) where
  floats : List α
  extra : Fin 4
  deriving DecidableEq, Repr

namespace MemoryBlock

variable {α : Type}

/-- Member `getSize()`, in bytes. -/
def getSize (m : MemoryBlock α) : Nat := sizeofFloat * m.floats.length + m.extra.val

/-- Member `setSize(newSize)` on a fresh block: `newSize` bytes of unspecified
contents. -/
def setSize (junk : Nat → α) (newSize : Nat) : MemoryBlock α :=
  { floats := (List.range (newSize / sizeofFloat)).map junk
    extra := ⟨newSize % 4, Nat.mod_lt _ (by decide)⟩ }

end MemoryBlock

/-- Reading `rawData[index]`. -/
def rawRead {α : Type} (rawData : List α) (index : Nat) : Except Fault α :=
  match rawData[index]? with
  | some v => .ok v
  | none => .error ⟨.message, 0, index⟩

/-- Writing `rawData[index] = v`. -/
def rawWrite {α : Type} (rawData : List α) (index : Nat) (v : α) : Except Fault (List α) :=
  if index < rawData.length then .ok (rawData.set index v) else .error ⟨.message, 0, index⟩

/-! ## The processor -/

/-- The state of a `ClaudeInterConnectAudioProcessor` that the audio bridge uses.
`inOut` is the value of the `"InOut"` parameter held by `apvts`; the other three are
the private members of the class; `sent` lists the blocks handed to `sendMessage`,
oldest first. -/
structure Processor (α : Type) where
  inOut : Bool
  isServer : Bool
  isConnected : Bool
  sharedAudioBuffer : AudioBuffer α
  sent : List (MemoryBlock α)
  deriving DecidableEq, Repr

variable {α : Type}

/-- A processor as the header initialises it: `InOut` defaults to `false`,
`isServer = false`, `isConnected{false}`, an empty `sharedAudioBuffer`. -/
def Processor.initial : Processor α :=
  { inOut := false, isServer := false, isConnected := false,
    sharedAudioBuffer := { numSamples := 0, channels := [] }, sent := [] }

/-- Member `sendMessage(dataToSend)` of the connection: the block goes out. -/
def sendMessage (p : Processor α) (dataToSend : MemoryBlock α) : Processor α :=
  { p with sent := p.sent ++ [dataToSend] }

/-- The role selection the constructor defers by 100 ms: `isServer` is set from the
`InOut` parameter (starting the server or dialling it changes no member modelled
here; the connection is reported later through `connectionMade`). -/
def deferredInit (p : Processor α) : Processor α :=
  if p.inOut then { p with isServer := true } else { p with isServer := false }

/-- Method `prepareToPlay(sampleRate, samplesPerBlock)`; `sampleRate` is unused. -/
def prepareToPlay [Zero α] (junk : Nat → Nat → α) (p : Processor α) (samplesPerBlock : Nat) :
    Processor α :=
  { p with sharedAudioBuffer := (p.sharedAudioBuffer.setSize junk 2 samplesPerBlock).clear }

/-- The sender loops of `processBlock` (lines 100-107): every sample of every channel
is stored at `rawData[sample * numChannels + channel]`. -/
def interleaveLoop (buffer : AudioBuffer α) (rawData : List α) : Except Fault (List α) :=
  forLoop buffer.getNumChannels (fun channel rawData =>
    forLoop buffer.getNumSamples (fun sample rawData => do
      let v ← buffer.read .block channel sample
      rawWrite rawData (sample * buffer.getNumChannels + channel) v) rawData) rawData

/-- The receiver loop of `processBlock` (lines 117-121): `addFrom` of the staging
plane of each channel, `getNumSamples()` samples from offset 0.  The state is the
block together with its `isClear` flag. -/
def copyStagedLoop [SampleAdd α] (noDenormals : Bool) (shared : AudioBuffer α)
    (buffer : AudioBuffer α × Bool) : Except Fault (AudioBuffer α × Bool) :=
  forLoop buffer.1.getNumChannels (fun channel buffer =>
    buffer.1.addFrom noDenormals .block buffer.2 channel 0 (shared.read .staging channel)
      buffer.1.getNumSamples) buffer

/-- Method `processBlock(buffer, midiMessages)`; `midiMessages` is unused.  The result
is the processor afterwards and the buffer as the host gets it back.  The first line
is `juce::ScopedNoDenormals noDenormals;` (line 85): the float mode of the whole
callback. -/
def processBlock [Zero α] [SampleAdd α] (junk : Nat → α) (p : Processor α)
    (buffer : AudioBuffer α) : Except Fault (Processor α × AudioBuffer α) :=
  let noDenormals := true
  let isSender := p.inOut
  if isSender && p.isConnected then do
    let bufferSize := sizeofFloat * buffer.getNumSamples * buffer.getNumChannels
    let dataToSend : MemoryBlock α := MemoryBlock.setSize junk bufferSize
    let rawData ← interleaveLoop buffer dataToSend.floats
    pure (sendMessage p { dataToSend with floats := rawData }, buffer)
  else if !isSender && p.isConnected then do
    let buffer := buffer.clear
    let out ← copyStagedLoop noDenormals p.sharedAudioBuffer (buffer, true)
    pure (p, out.1)
  else
    pure (p, buffer)

/-- Method `connectionMade()`. -/
def connectionMade (p : Processor α) : Processor α := { p with isConnected := true }

/-- Method `connectionLost()`. -/
def connectionLost (p : Processor α) : Processor α := { p with isConnected := false }

/-- The loops of `messageReceived` (lines 151-158): for each of the 2 channels,
`writePtr[sample] = rawData[sample * 2 + channel]` for `sample < numSamples`. -/
def deinterleaveLoop (rawData : List α) (numSamples : Nat) (shared : AudioBuffer α) :
    Except Fault (AudioBuffer α) :=
  forLoop 2 (fun channel shared =>
    forLoop numSamples (fun sample shared => do
      let v ← rawRead rawData (sample * 2 + channel)
      shared.write .staging channel sample v) shared) shared

/-- Method `messageReceived(message)`. -/
def messageReceived (p : Processor α) (message : MemoryBlock α) : Except Fault (Processor α) :=
  if !p.isServer then do
    let rawData := message.floats
    let numSamples := message.getSize / (sizeofFloat * 2)
    let shared ← deinterleaveLoop rawData numSamples p.sharedAudioBuffer
    pure { p with sharedAudioBuffer := shared }
  else
    pure p

/-- Method `parameterChanged(parameterID, newValue)`: both paths only write a debug
line (`newValue > 0.5f` picks its text), so no member changes. -/
def parameterChanged (p : Processor α) (parameterID : String) (newValue : ℚ) : Processor α :=
  if parameterID = "InOut" then
    (if newValue > 1 / 2 then p else p)
  else p

/-- A stereo block with left plane `l` and right plane `r`. -/
def stereo (l r : List α) : AudioBuffer α := { numSamples := l.length, channels := [l, r] }

/-- A connected sender: initialised with `InOut = true`, then `connectionMade`. -/
def exampleSender : Processor Int :=
  connectionMade (deferredInit { Processor.initial with inOut := true })

/-- A connected receiver: initialised with the default `InOut = false`, then
`connectionMade`. -/
def exampleReceiver : Processor Int := connectionMade (deferredInit Processor.initial)

/-- A connected receiver of `float` samples. -/
def floatReceiver : Processor F32 := connectionMade (deferredInit Processor.initial)

/-- The connected receiver with the two 3-sample staging planes `s₀` and `s₁`. -/
def staged3 (s₀ s₁ : List Int) : Processor Int :=
  { exampleReceiver with sharedAudioBuffer := { numSamples := 3, channels := [s₀, s₁] } }

/-- The staging buffer has the dimensions `prepareToPlay(M)` gives it: `size` is `M`
and there are two channel planes of `M` samples. -/
def StagingCapacity (p : Processor α) (M : Nat) : Prop :=
  p.sharedAudioBuffer.numSamples = M ∧ p.sharedAudioBuffer.channels.map List.length = [M, M]

instance (p : Processor α) (M : Nat) : Decidable (StagingCapacity p M) :=
  inferInstanceAs (Decidable (_ ∧ _))

/-- Two buffers of the same dimensions: same `size`, same number of channels, same
plane lengths. -/
def AudioBuffer.SameShape (a b : AudioBuffer α) : Prop :=
  a.numSamples = b.numSamples ∧ a.channels.map List.length = b.channels.map List.length

instance (a b : AudioBuffer α) : Decidable (a.SameShape b) :=
  inferInstanceAs (Decidable (_ ∧ _))


/-! # Theorems -/

/-! ## Loop rule -/

theorem forLoop_inv {σ : Type} (body : Nat → σ → Except Fault σ) (I : Nat → σ → Prop)
    (n : Nat) (s : σ) (h0 : I 0 s)
    (hstep : ∀ i t, i < n → I i t → ∃ t', body i t = .ok t' ∧ I (i + 1) t') :
    ∃ t, forLoop n body s = .ok t ∧ I n t := by
  induction n with
  | zero => exact ⟨s, rfl, h0⟩
  | succ k ih =>
    obtain ⟨t, ht, hI⟩ := ih (fun i t hi => hstep i t (Nat.lt_succ_of_lt hi))
    obtain ⟨t', ht', hI'⟩ := hstep k t (Nat.lt_succ_self k) hI
    exact ⟨t', by simp [forLoop, ht, ht'], hI'⟩

theorem forLoop_congr {σ : Type} {f g : Nat → σ → Except Fault σ} {n : Nat}
    (h : ∀ i, i < n → ∀ s, f i s = g i s) (s : σ) : forLoop n f s = forLoop n g s := by
  induction n with
  | zero => rfl
  | succ k ih =>
    simp only [forLoop, ih (fun i hi => h i (Nat.lt_succ_of_lt hi))]
    cases forLoop k g s with
    | error e => rfl
    | ok t => exact h k (Nat.lt_succ_self k) t

namespace AudioBuffer

theorem SameShape.refl (a : AudioBuffer α) : a.SameShape a := ⟨rfl, rfl⟩

theorem SameShape.trans {a b c : AudioBuffer α} (h₁ : a.SameShape b) (h₂ : b.SameShape c) :
    a.SameShape c := ⟨h₁.1.trans h₂.1, h₁.2.trans h₂.2⟩

theorem SameShape.symm {a b : AudioBuffer α} (h : a.SameShape b) : b.SameShape a :=
  ⟨h.1.symm, h.2.symm⟩

theorem sample?_isSome_iff (b : AudioBuffer α) (c i : Nat) :
    (b.sample? c i).isSome ↔ ∃ p, b.channels[c]? = some p ∧ i < p.length := by
  unfold sample?
  cases hc : b.channels[c]? with
  | none => simp
  | some p =>
    simp only [Option.some.injEq, exists_eq_left']
    rw [Option.isSome_iff_exists]
    constructor
    · rintro ⟨x, hx⟩
      exact (List.getElem?_eq_some_iff.mp hx).1
    · intro h
      exact ⟨p[i], List.getElem?_eq_getElem h⟩

theorem read_ok {r : Region} {b : AudioBuffer α} {c i : Nat} {x : α}
    (h : b.sample? c i = some x) : b.read r c i = .ok x := by
  simp [read, h]

theorem write_ok (r : Region) {b : AudioBuffer α} {c i : Nat} (v : α)
    (h : (b.sample? c i).isSome) :
    ∃ b', b.write r c i v = .ok b' ∧ b.SameShape b' ∧
      ∀ c' i', b'.sample? c' i' = if c' = c ∧ i' = i then some v else b.sample? c' i' := by
  obtain ⟨p, hp, hi⟩ := (sample?_isSome_iff b c i).mp h
  have hc : c < b.channels.length := (List.getElem?_eq_some_iff.mp hp).1
  refine ⟨{ b with channels := b.channels.set c (p.set i v) }, by simp [write, hp, hi], ⟨rfl, ?_⟩, ?_⟩
  · apply List.ext_getElem?
    intro n
    simp only [List.getElem?_map, List.getElem?_set]
    by_cases hn : c = n
    · subst hn; simp [hp, hc]
    · simp [hn]
  · intro c' i'
    simp only [sample?, List.getElem?_set]
    by_cases hn : c = c'
    · subst hn
      simp only [hc, if_true, hp, true_and]
      by_cases hi' : i = i'
      · subst hi'; simp [hi]
      · have : ¬ i' = i := fun h => hi' h.symm
        simp [hi', this]
    · have : ¬ c' = c := fun h => hn h.symm
      simp [hn, this]

theorem ext_sample? {a b : AudioBuffer α} (hs : a.SameShape b)
    (h : ∀ c i, a.sample? c i = b.sample? c i) : a = b := by
  obtain ⟨n₁, ch₁⟩ := a
  obtain ⟨n₂, ch₂⟩ := b
  obtain ⟨hn, hl⟩ := hs
  simp only at hn hl
  subst hn
  congr 1
  apply List.ext_getElem?
  intro c
  have hlc := congrArg (fun l => l[c]?) hl
  simp only [List.getElem?_map] at hlc
  cases h₁ : ch₁[c]? with
  | none =>
    cases h₂ : ch₂[c]? with
    | none => rfl
    | some q => simp [h₁, h₂] at hlc
  | some p =>
    cases h₂ : ch₂[c]? with
    | none => simp [h₁, h₂] at hlc
    | some q =>
      congr 1
      apply List.ext_getElem?
      intro i
      have := h c i
      simpa [sample?, h₁, h₂] using this

end AudioBuffer

/-! ## Index arithmetic of the interleaved layout -/

theorem interleaved_index_lt {n N s c : Nat} (hs : s < N) (hc : c < n) : s * n + c < N * n := by
  calc s * n + c < s * n + n := Nat.add_lt_add_left hc _
    _ = (s + 1) * n := by ring
    _ ≤ N * n := Nat.mul_le_mul_right n hs

theorem interleaved_index_inj {n s c s' c' : Nat} (hc : c < n) (hc' : c' < n)
    (h : s * n + c = s' * n + c') : s = s' ∧ c = c' := by
  have hn : 0 < n := Nat.lt_of_le_of_lt (Nat.zero_le c) hc
  have hmod := congrArg (fun x => x % n) h
  have hdiv := congrArg (fun x => x / n) h
  simp only [Nat.add_comm (_ * n), Nat.add_mul_mod_self_right, Nat.mod_eq_of_lt hc,
    Nat.mod_eq_of_lt hc', Nat.add_mul_div_right _ _ hn, Nat.div_eq_of_lt hc,
    Nat.div_eq_of_lt hc', Nat.zero_add] at hmod hdiv
  exact ⟨hdiv, hmod⟩

namespace AudioBuffer

theorem WF.sample?_isSome {b : AudioBuffer α} (hwf : b.WF) {c i : Nat}
    (hc : c < b.getNumChannels) (hi : i < b.getNumSamples) : (b.sample? c i).isSome := by
  rw [sample?_isSome_iff]
  have hc' : c < b.channels.length := hc
  refine ⟨b.channels[c], List.getElem?_eq_getElem hc', ?_⟩
  rw [hwf _ (List.getElem_mem hc')]
  exact hi

theorem WF.sample?_eq_none {b : AudioBuffer α} (hwf : b.WF) {c i : Nat}
    (h : ¬ (c < b.getNumChannels ∧ i < b.getNumSamples)) : b.sample? c i = none := by
  rw [← Option.not_isSome_iff_eq_none, sample?_isSome_iff]
  rintro ⟨p, hp, hi⟩
  obtain ⟨hc, rfl⟩ := List.getElem?_eq_some_iff.mp hp
  rw [hwf _ (List.getElem_mem hc)] at hi
  exact h ⟨hc, hi⟩

end AudioBuffer

theorem rawWrite_ok {raw : List α} {i : Nat} (v : α) (h : i < raw.length) :
    rawWrite raw i v = .ok (raw.set i v) := by
  simp [rawWrite, h]

theorem rawRead_ok {raw : List α} {i : Nat} {x : α} (h : raw[i]? = some x) :
    rawRead raw i = .ok x := by
  simp [rawRead, h]

/-- The sender loops fill the whole block: cell `sample * numChannels + channel` holds
that sample of that channel. -/
theorem interleaveLoop_spec (b : AudioBuffer α) (hwf : b.WF) (raw₀ : List α)
    (hlen : raw₀.length = b.getNumSamples * b.getNumChannels) :
    ∃ raw, interleaveLoop b raw₀ = .ok raw ∧ raw.length = raw₀.length ∧
      ∀ c s, c < b.getNumChannels → s < b.getNumSamples →
        raw[s * b.getNumChannels + c]? = b.sample? c s := by
  have key := forLoop_inv
    (fun channel rawData =>
      forLoop b.getNumSamples (fun sample rawData => do
        let v ← b.read .block channel sample
        rawWrite rawData (sample * b.getNumChannels + channel) v) rawData)
    (fun k raw => raw.length = raw₀.length ∧
      ∀ c s, c < k → s < b.getNumSamples → raw[s * b.getNumChannels + c]? = b.sample? c s)
    b.getNumChannels raw₀ ⟨rfl, fun c s hc => absurd hc (Nat.not_lt_zero c)⟩ ?_
  · obtain ⟨raw, hraw, hl, hv⟩ := key
    exact ⟨raw, hraw, hl, hv⟩
  · intro ch raw hch ⟨hl, hprev⟩
    have inner := forLoop_inv
      (fun sample rawData => do
        let v ← b.read .block ch sample
        rawWrite rawData (sample * b.getNumChannels + ch) v)
      (fun k raw => raw.length = raw₀.length ∧
        (∀ c s, c < ch → s < b.getNumSamples → raw[s * b.getNumChannels + c]? = b.sample? c s) ∧
        ∀ s, s < k → raw[s * b.getNumChannels + ch]? = b.sample? ch s)
      b.getNumSamples raw ⟨hl, hprev, fun s hs => absurd hs (Nat.not_lt_zero s)⟩ ?_
    · obtain ⟨raw', hraw', hl', hlow, hcur⟩ := inner
      refine ⟨raw', hraw', hl', ?_⟩
      intro c s hc hs
      rcases Nat.lt_succ_iff_lt_or_eq.mp hc with h | h
      · exact hlow c s h hs
      · subst h; exact hcur s hs
    · intro sm raw' hsm ⟨hl', hlow, hcur⟩
      obtain ⟨v, hv⟩ := Option.isSome_iff_exists.mp (hwf.sample?_isSome hch hsm)
      have hidx : sm * b.getNumChannels + ch < raw'.length := by
        rw [hl', hlen]; exact interleaved_index_lt hsm hch
      refine ⟨raw'.set (sm * b.getNumChannels + ch) v, ?_, by simpa using hl', ?_, ?_⟩
      · simp [AudioBuffer.read_ok hv, rawWrite_ok v hidx, bind, Except.bind]
      · intro c s hc hs
        rw [List.getElem?_set]
        have hne : ¬ sm * b.getNumChannels + ch = s * b.getNumChannels + c := by
          intro h
          have := (interleaved_index_inj hch (Nat.lt_trans hc hch) h).2
          omega
        simp only [hne, if_false]
        exact hlow c s hc hs
      · intro s hs
        rw [List.getElem?_set]
        rcases Nat.lt_succ_iff_lt_or_eq.mp hs with h | h
        · have hne : ¬ sm * b.getNumChannels + ch = s * b.getNumChannels + ch := by
            intro h'
            have := (interleaved_index_inj hch hch h').1
            omega
          simp only [hne, if_false]
          exact hcur s h
        · subst h
          simp [hidx, hv]

/-- The receiver loops of `messageReceived` overwrite samples `0 .. k-1` of channels 0
and 1 with the de-interleaved cells and touch nothing else, provided those samples
exist. -/
theorem deinterleaveLoop_spec (raw : List α) (k : Nat) (shared : AudioBuffer α)
    (hraw : 2 * k ≤ raw.length)
    (hcap : ∀ c i, c < 2 → i < k → (shared.sample? c i).isSome) :
    ∃ shared', deinterleaveLoop raw k shared = .ok shared' ∧ shared.SameShape shared' ∧
      ∀ c i, shared'.sample? c i =
        if c < 2 ∧ i < k then raw[i * 2 + c]? else shared.sample? c i := by
  have key := forLoop_inv
    (fun channel shared =>
      forLoop k (fun sample shared => do
        let v ← rawRead raw (sample * 2 + channel)
        shared.write .staging channel sample v) shared)
    (fun ch t => shared.SameShape t ∧
      ∀ c i, t.sample? c i = if c < ch ∧ i < k then raw[i * 2 + c]? else shared.sample? c i)
    2 shared ⟨AudioBuffer.SameShape.refl _, fun c i => by simp⟩ ?_
  · exact key
  · intro ch t hch ⟨hshape, hval⟩
    have inner := forLoop_inv
      (fun sample shared => do
        let v ← rawRead raw (sample * 2 + ch)
        shared.write .staging ch sample v)
      (fun sm u => shared.SameShape u ∧
        ∀ c i, u.sample? c i =
          if (c < ch ∧ i < k) ∨ (c = ch ∧ i < sm) then raw[i * 2 + c]? else shared.sample? c i)
      k t ⟨hshape, fun c i => by simpa using hval c i⟩ ?_
    · obtain ⟨u, hu, hshape', hval'⟩ := inner
      refine ⟨u, hu, hshape', ?_⟩
      intro c i
      rw [hval' c i]
      have : ((c < ch ∧ i < k) ∨ (c = ch ∧ i < k)) ↔ (c < ch + 1 ∧ i < k) := by omega
      simp only [this]
    · intro sm u hsm ⟨hshape', hval'⟩
      have hidx : sm * 2 + ch < raw.length := by omega
      have hsome : (u.sample? ch sm).isSome := by
        rw [hval' ch sm]
        rw [if_neg (by omega)]
        exact hcap ch sm hch hsm
      obtain ⟨u', hu', hs', hv'⟩ := AudioBuffer.write_ok .staging (raw[sm * 2 + ch]) hsome
      refine ⟨u', ?_, hshape'.trans hs', ?_⟩
      · simp [rawRead_ok (List.getElem?_eq_getElem hidx), hu', bind, Except.bind]
      · intro c i
        rw [hv' c i, hval' c i]
        by_cases h : c = ch ∧ i = sm
        · obtain ⟨rfl, rfl⟩ := h
          simp [List.getElem?_eq_getElem hidx]
        · have : ((c < ch ∧ i < k) ∨ (c = ch ∧ i < sm + 1)) ↔
              ((c < ch ∧ i < k) ∨ (c = ch ∧ i < sm)) := by omega
          simp only [h, if_false, this]

namespace AudioBuffer

theorem clear_sample? [Zero α] (b : AudioBuffer α) (c i : Nat) :
    b.clear.sample? c i = if c < b.getNumChannels ∧ i < b.getNumSamples then some 0 else none := by
  simp only [sample?, clear, List.getElem?_map, getNumChannels, getNumSamples]
  by_cases hc : c < b.channels.length
  · rw [List.getElem?_eq_getElem hc]
    by_cases hi : i < b.numSamples
    · simp [hc, hi, List.getElem?_replicate]
    · simp [hc, hi, List.getElem?_replicate]
  · rw [List.getElem?_eq_none (Nat.le_of_not_lt hc)]
    simp [hc]

theorem clear_getNumChannels [Zero α] (b : AudioBuffer α) :
    b.clear.getNumChannels = b.getNumChannels := by
  simp [clear, getNumChannels]

theorem SameShape.getNumChannels {a b : AudioBuffer α} (h : a.SameShape b) :
    b.getNumChannels = a.getNumChannels := by
  have := congrArg List.length h.2
  simpa [AudioBuffer.getNumChannels] using this.symm

theorem SameShape.getNumSamples {a b : AudioBuffer α} (h : a.SameShape b) :
    b.getNumSamples = a.getNumSamples := h.1.symm

/-- The copying loop of `addFrom` from offset 0: samples `0 .. n-1` of the destination
channel become `source[i]`, nothing else changes. -/
theorem copyLoop_spec (r : Region) (b : AudioBuffer α) (c n : Nat)
    (source : Nat → Except Fault α) (src : Nat → α)
    (hsrc : ∀ i, i < n → source i = .ok (src i))
    (hdst : ∀ i, i < n → (b.sample? c i).isSome) :
    ∃ b', forLoop n (fun i b => do
        let s ← source i
        b.write r c (0 + i) s) b = .ok b' ∧ b.SameShape b' ∧
      ∀ c' i, b'.sample? c' i = if c' = c ∧ i < n then some (src i) else b.sample? c' i := by
  refine forLoop_inv _
    (fun m t => b.SameShape t ∧
      ∀ c' i, t.sample? c' i = if c' = c ∧ i < m then some (src i) else b.sample? c' i)
    n b ⟨SameShape.refl _, fun c' i => by simp⟩ ?_
  intro m t hm ⟨hshape, hval⟩
  have hcur : (t.sample? c m).isSome := by
    rw [hval c m, if_neg (by omega)]; exact hdst m hm
  obtain ⟨t', ht', hs', hv'⟩ := write_ok r (src m) hcur
  refine ⟨t', ?_, hshape.trans hs', ?_⟩
  · simp [hsrc m hm, ht', bind, Except.bind]
  · intro c' i
    rw [hv' c' i, hval c' i]
    by_cases h : c' = c ∧ i = m
    · obtain ⟨rfl, rfl⟩ := h
      simp
    · have : (c' = c ∧ i < m + 1) ↔ (c' = c ∧ i < m) := by omega
      simp only [h, if_false, this]

/-- The adding loop of `addFrom` from offset 0: samples `0 .. n-1` of the destination
channel become `dest[i] + source[i]`, nothing else changes. -/
theorem addLoop_spec [SampleAdd α] (nd : Bool) (r : Region) (b : AudioBuffer α) (c n : Nat)
    (source : Nat → Except Fault α) (src dst : Nat → α)
    (hsrc : ∀ i, i < n → source i = .ok (src i))
    (hdst : ∀ i, i < n → b.sample? c i = some (dst i)) :
    ∃ b', forLoop n (fun i b => do
        let s ← source i
        let d ← b.read r c (0 + i)
        b.write r c (0 + i) (SampleAdd.add nd d s)) b = .ok b' ∧ b.SameShape b' ∧
      ∀ c' i, b'.sample? c' i =
        if c' = c ∧ i < n then some (SampleAdd.add nd (dst i) (src i)) else b.sample? c' i := by
  refine forLoop_inv _
    (fun m t => b.SameShape t ∧
      ∀ c' i, t.sample? c' i =
        if c' = c ∧ i < m then some (SampleAdd.add nd (dst i) (src i)) else b.sample? c' i)
    n b ⟨SameShape.refl _, fun c' i => by simp⟩ ?_
  intro m t hm ⟨hshape, hval⟩
  have hcur : t.sample? c m = some (dst m) := by
    rw [hval c m]; simp [hdst m hm]
  obtain ⟨t', ht', hs', hv'⟩ :=
    write_ok r (SampleAdd.add nd (dst m) (src m)) (Option.isSome_iff_exists.mpr ⟨_, hcur⟩)
  refine ⟨t', ?_, hshape.trans hs', ?_⟩
  · simp [hsrc m hm, read_ok hcur, ht', bind, Except.bind]
  · intro c' i
    rw [hv' c' i, hval c' i]
    by_cases h : c' = c ∧ i = m
    · obtain ⟨rfl, rfl⟩ := h
      simp
    · have : (c' = c ∧ i < m + 1) ↔ (c' = c ∧ i < m) := by omega
      simp only [h, if_false, this]

/-- Member `addFrom` from offset 0 with at least one sample: into a buffer flagged
clear the source is copied, otherwise it is added; the flag is reset. -/
theorem addFrom_spec [SampleAdd α] (nd : Bool) (r : Region) (b : AudioBuffer α)
    (isClear : Bool) (c n : Nat) (source : Nat → Except Fault α) (src dst : Nat → α)
    (hn : 0 < n) (hsrc : ∀ i, i < n → source i = .ok (src i))
    (hdst : ∀ i, i < n → b.sample? c i = some (dst i)) :
    ∃ b', b.addFrom nd r isClear c 0 source n = .ok (b', false) ∧ b.SameShape b' ∧
      ∀ c' i, b'.sample? c' i =
        if c' = c ∧ i < n then
          some (if isClear then src i else SampleAdd.add nd (dst i) (src i))
        else b.sample? c' i := by
  cases isClear with
  | true =>
    obtain ⟨b', hb', hs, hv⟩ := copyLoop_spec r b c n source src hsrc
      (fun i hi => Option.isSome_iff_exists.mpr ⟨_, hdst i hi⟩)
    refine ⟨b', ?_, hs, by simpa using hv⟩
    unfold addFrom
    rw [if_pos hn, if_pos rfl, hb']
    rfl
  | false =>
    obtain ⟨b', hb', hs, hv⟩ := addLoop_spec nd r b c n source src dst hsrc hdst
    refine ⟨b', ?_, hs, by simpa using hv⟩
    unfold addFrom
    rw [if_pos hn, if_neg (by simp), hb']
    rfl

theorem addFrom_zero [SampleAdd α] (nd : Bool) (r : Region) (b : AudioBuffer α)
    (isClear : Bool) (c s : Nat) (source : Nat → Except Fault α) :
    b.addFrom nd r isClear c s source 0 = .ok (b, isClear) := by
  simp [addFrom, pure, Except.pure]

end AudioBuffer

/-- The receiver loop of `processBlock`, run on the cleared block, leaves in channel 0
the staged samples of channel 0 and in every other channel `0 + staged`, provided the
staging buffer has a sample at every position of the block. -/
theorem copyStagedLoop_spec [Zero α] [SampleAdd α] (nd : Bool) (shared buffer : AudioBuffer α)
    (hcap : ∀ c i, c < buffer.getNumChannels → i < buffer.getNumSamples →
      (shared.sample? c i).isSome) :
    ∃ out, copyStagedLoop nd shared (buffer.clear, true) = .ok out ∧
      buffer.clear.SameShape out.1 ∧
      ∀ c i, out.1.sample? c i =
        if c < buffer.getNumChannels ∧ i < buffer.getNumSamples then
          (if c = 0 then shared.sample? c i
           else (shared.sample? c i).map (SampleAdd.add nd 0))
        else none := by
  have key := forLoop_inv
    (fun channel (buf : AudioBuffer α × Bool) =>
      buf.1.addFrom nd .block buf.2 channel 0 (shared.read .staging channel)
        buf.1.getNumSamples)
    (fun ch t => buffer.clear.SameShape t.1 ∧
      t.2 = decide (ch = 0 ∨ buffer.getNumSamples = 0) ∧
      ∀ c i, t.1.sample? c i =
        if c < buffer.getNumChannels ∧ i < buffer.getNumSamples then
          (if c < ch then
            (if c = 0 then shared.sample? c i
             else (shared.sample? c i).map (SampleAdd.add nd 0))
           else some 0)
        else none)
    buffer.getNumChannels (buffer.clear, true)
    ⟨AudioBuffer.SameShape.refl _, by simp, fun c i => by simp [AudioBuffer.clear_sample?]⟩ ?_
  · obtain ⟨out, hout, hshape, _, hval⟩ := key
    refine ⟨out, by simpa [copyStagedLoop, AudioBuffer.clear_getNumChannels] using hout,
      hshape, ?_⟩
    intro c i
    rw [hval c i]
    by_cases h : c < buffer.getNumChannels ∧ i < buffer.getNumSamples
    · simp [h, h.1]
    · simp [h]
  · intro ch t hch ⟨hshape, hflag, hval⟩
    have hN : t.1.getNumSamples = buffer.getNumSamples := hshape.getNumSamples
    rcases Nat.eq_zero_or_pos buffer.getNumSamples with h0 | hpos
    · refine ⟨t, ?_, hshape, by simp [hflag, h0], ?_⟩
      · show t.1.addFrom nd .block t.2 ch 0 (shared.read .staging ch) t.1.getNumSamples = _
        rw [hN, h0]
        exact AudioBuffer.addFrom_zero _ _ _ _ _ _ _
      · intro c i
        rw [hval c i]
        simp [h0]
    · have hsome : ∀ i, i < buffer.getNumSamples → ∃ x, shared.sample? ch i = some x :=
        fun i hi => Option.isSome_iff_exists.mp (hcap ch i hch hi)
      obtain ⟨t', ht', hs', hv'⟩ := AudioBuffer.addFrom_spec nd .block t.1 t.2 ch
        t.1.getNumSamples (shared.read .staging ch)
        (fun i => ((shared.sample? ch i).getD 0)) (fun _ => 0) (hN ▸ hpos)
        (fun i hi => by
          obtain ⟨x, hx⟩ := hsome i (hN ▸ hi)
          simp [AudioBuffer.read_ok hx, hx])
        (fun i hi => by
          rw [hval ch i]
          have hi' : i < buffer.getNumSamples := hN ▸ hi
          simp [hch, hi'])
      have hne : buffer.getNumSamples ≠ 0 := Nat.pos_iff_ne_zero.mp hpos
      refine ⟨(t', false), ht', hshape.trans hs', by simp [hne], ?_⟩
      intro c i
      show t'.sample? c i = _
      rw [hv' c i, hval c i, hN, hflag]
      by_cases hc : c = ch
      · subst hc
        by_cases hi : i < buffer.getNumSamples
        · obtain ⟨x, hx⟩ := hsome i hi
          by_cases hc0 : c = 0
          · subst hc0; simp [hi, hch, hx]
          · simp [hi, hch, hx, hc0, hne]
        · simp [hi]
      · by_cases hlt : c < ch
        · have : c < ch + 1 := Nat.lt_succ_of_lt hlt
          simp [hc, hlt, this]
        · have : ¬ c < ch + 1 := by omega
          simp [hc, hlt, this]

/-! ## The three paths of the bridge -/

theorem setSize_floats_length (j : Nat → α) (n : Nat) :
    (MemoryBlock.setSize j (sizeofFloat * n)).floats.length = n := by
  simp [MemoryBlock.setSize, sizeofFloat]

theorem setSize_extra (j : Nat → α) (n : Nat) :
    (MemoryBlock.setSize j (sizeofFloat * n)).extra = 0 := by
  apply Fin.ext
  simp [MemoryBlock.setSize, sizeofFloat]

/-- Sender path of `processBlock` while connected: one block is sent, holding the
interleaved samples, and the audio block comes back as it was. -/
theorem processBlock_sender_connected [Zero α] [SampleAdd α] (j : Nat → α) (p : Processor α)
    (b : AudioBuffer α) (hwf : b.WF) (hs : p.inOut = true) (hc : p.isConnected = true) :
    ∃ raw, processBlock j p b = .ok (sendMessage p ⟨raw, 0⟩, b) ∧
      raw.length = b.getNumSamples * b.getNumChannels ∧
      ∀ c s, c < b.getNumChannels → s < b.getNumSamples →
        raw[s * b.getNumChannels + c]? = b.sample? c s := by
  have hmul : sizeofFloat * b.getNumSamples * b.getNumChannels =
      sizeofFloat * (b.getNumSamples * b.getNumChannels) := Nat.mul_assoc _ _ _
  obtain ⟨raw, hraw, hlen, hval⟩ := interleaveLoop_spec b hwf
    (MemoryBlock.setSize j (sizeofFloat * b.getNumSamples * b.getNumChannels)).floats
    (by rw [hmul, setSize_floats_length])
  refine ⟨raw, ?_, by rw [hlen, hmul, setSize_floats_length], hval⟩
  have hextra := setSize_extra j (b.getNumSamples * b.getNumChannels)
  rw [← hmul] at hextra
  simp [processBlock, hs, hc, hraw, hextra, bind, Except.bind, pure, Except.pure]

/-- Path of `processBlock` taken when there is no connection, in either role. -/
theorem processBlock_not_connected [Zero α] [SampleAdd α] (j : Nat → α) (p : Processor α)
    (b : AudioBuffer α) (hc : p.isConnected = false) : processBlock j p b = .ok (p, b) := by
  simp [processBlock, hc, pure, Except.pure]

/-- Receiver path of `processBlock` while connected: channel 0 of the block gets the
staged samples, every other channel gets `0 + staged`, added with denormals
disabled. -/
theorem processBlock_receiver_connected [Zero α] [SampleAdd α] (j : Nat → α)
    (p : Processor α) (b : AudioBuffer α) (hr : p.inOut = false) (hc : p.isConnected = true)
    (hcap : ∀ c i, c < b.getNumChannels → i < b.getNumSamples →
      (p.sharedAudioBuffer.sample? c i).isSome) :
    ∃ out, processBlock j p b = .ok (p, out) ∧ b.clear.SameShape out ∧
      ∀ c i, out.sample? c i =
        if c < b.getNumChannels ∧ i < b.getNumSamples then
          (if c = 0 then p.sharedAudioBuffer.sample? c i
           else (p.sharedAudioBuffer.sample? c i).map (SampleAdd.add true 0))
        else none := by
  obtain ⟨out, hout, hshape, hval⟩ := copyStagedLoop_spec true p.sharedAudioBuffer b hcap
  exact ⟨out.1, by simp [processBlock, hr, hc, hout, bind, Except.bind, pure, Except.pure],
    hshape, hval⟩

theorem getSize_div_le (m : MemoryBlock α) :
    2 * (m.getSize / (sizeofFloat * 2)) ≤ m.floats.length := by
  have := m.extra.isLt
  simp only [MemoryBlock.getSize, sizeofFloat]
  omega

/-- Receiver path of `messageReceived`. -/
theorem messageReceived_receiver (p : Processor α) (m : MemoryBlock α)
    (hr : p.isServer = false)
    (hcap : ∀ c i, c < 2 → i < m.getSize / (sizeofFloat * 2) →
      (p.sharedAudioBuffer.sample? c i).isSome) :
    ∃ shared, messageReceived p m = .ok { p with sharedAudioBuffer := shared } ∧
      p.sharedAudioBuffer.SameShape shared ∧
      ∀ c i, shared.sample? c i =
        if c < 2 ∧ i < m.getSize / (sizeofFloat * 2) then m.floats[i * 2 + c]?
        else p.sharedAudioBuffer.sample? c i := by
  obtain ⟨shared, hshared, hshape, hval⟩ := deinterleaveLoop_spec m.floats
    (m.getSize / (sizeofFloat * 2)) p.sharedAudioBuffer (getSize_div_le m) hcap
  exact ⟨shared, by simp [messageReceived, hr, hshared, bind, Except.bind, pure, Except.pure],
    hshape, hval⟩

/-! ## Stereo blocks and the prepared staging buffer -/

theorem stereo_wf (l r : List α) (hr : r.length = l.length) : (stereo l r).WF := by
  intro p hp
  simp only [stereo, List.mem_cons, List.mem_singleton, List.not_mem_nil, or_false] at hp
  rcases hp with rfl | rfl
  · rfl
  · exact hr

theorem stereo_sample?_zero (l r : List α) (i : Nat) : (stereo l r).sample? 0 i = l[i]? := rfl

theorem stereo_sample?_one (l r : List α) (i : Nat) : (stereo l r).sample? 1 i = r[i]? := rfl

theorem stereo_getNumChannels (l r : List α) : (stereo l r).getNumChannels = 2 := rfl

theorem stereo_getNumSamples (l r : List α) : (stereo l r).getNumSamples = l.length := rfl

/-- A buffer of the shape of a stereo block is that block once its samples agree. -/
theorem eq_stereo_of_sample? {b : AudioBuffer α} {l r : List α} (hr : r.length = l.length)
    (hn : b.numSamples = l.length) (hl : b.channels.map List.length = [l.length, l.length])
    (h0 : ∀ i, i < l.length → b.sample? 0 i = l[i]?)
    (h1 : ∀ i, i < l.length → b.sample? 1 i = r[i]?)
    (hout : ∀ c i, ¬ (c < 2 ∧ i < l.length) → b.sample? c i = none) : b = stereo l r := by
  apply AudioBuffer.ext_sample?
  · exact ⟨hn, by simp [stereo, hl, hr]⟩
  · intro c i
    by_cases h : c < 2 ∧ i < l.length
    · obtain ⟨hc, hi⟩ := h
      interval_cases c
      · exact h0 i hi
      · exact h1 i hi
    · rw [hout c i h, (stereo_wf l r hr).sample?_eq_none h]

theorem prepareToPlay_shared [Zero α] (junk : Nat → Nat → α) (p : Processor α) (M : Nat) :
    (prepareToPlay junk p M).sharedAudioBuffer =
      { numSamples := M, channels := [List.replicate M 0, List.replicate M 0] } := by
  simp only [prepareToPlay, AudioBuffer.setSize, AudioBuffer.getNumChannels]
  split
  · rename_i h
    obtain ⟨hn, hc⟩ := h
    match hch : p.sharedAudioBuffer.channels, hc with
    | [a, b], _ => simp [AudioBuffer.clear, hch, hn]
  · simp [AudioBuffer.clear, List.range_succ]

theorem pair_sample? (n : Nat) (a b : List α) (c i : Nat) :
    (AudioBuffer.mk n [a, b]).sample? c i =
      if c = 0 then a[i]? else if c = 1 then b[i]? else none := by
  match c with
  | 0 => rfl
  | 1 => rfl
  | c + 2 => simp [AudioBuffer.sample?]

theorem frame_numSamples (raw : List α) (N : Nat) (h : raw.length = N * 2) :
    (MemoryBlock.mk raw 0).getSize / (sizeofFloat * 2) = N := by
  simp only [MemoryBlock.getSize, sizeofFloat, h]
  simp
  omega

theorem StagingCapacity.has_sample {p : Processor α} {M : Nat} (h : StagingCapacity p M)
    {c i : Nat} (hc : c < 2) (hi : i < M) : (p.sharedAudioBuffer.sample? c i).isSome := by
  obtain ⟨_, hl⟩ := h
  rw [AudioBuffer.sample?_isSome_iff]
  have hlc := congrArg (fun l => l[c]?) hl
  simp only [List.getElem?_map] at hlc
  cases hp : p.sharedAudioBuffer.channels[c]? with
  | none => interval_cases c <;> simp [hp] at hlc
  | some q =>
    refine ⟨q, rfl, ?_⟩
    interval_cases c <;> simp [hp] at hlc <;> omega

theorem StagingCapacity.of_sameShape {p q : Processor α} {M : Nat} (h : StagingCapacity p M)
    (hs : p.sharedAudioBuffer.SameShape q.sharedAudioBuffer) : StagingCapacity q M :=
  ⟨hs.1 ▸ h.1, hs.2 ▸ h.2⟩

theorem prepareToPlay_capacity [Zero α] (junk : Nat → Nat → α) (p : Processor α) (M : Nat) :
    StagingCapacity (prepareToPlay junk p M) M := by
  rw [StagingCapacity, prepareToPlay_shared]
  simp

/-- A frame carrying the stereo samples `(fl, fr)`, received by a receiver whose two
staging planes are long enough, replaces the head of each plane by the samples of its
channel and keeps the tail. -/
theorem messageReceived_frame (p : Processor α) (m : MemoryBlock α) (fl fr s₀ s₁ : List α)
    (n : Nat) (hrs : p.isServer = false)
    (hsh : p.sharedAudioBuffer = { numSamples := n, channels := [s₀, s₁] })
    (hfr : fr.length = fl.length) (hk : m.getSize / (sizeofFloat * 2) = fl.length)
    (hlay : ∀ c i, c < 2 → i < fl.length → m.floats[i * 2 + c]? = (stereo fl fr).sample? c i)
    (h₀ : fl.length ≤ s₀.length) (h₁ : fl.length ≤ s₁.length) :
    messageReceived p m = .ok { p with sharedAudioBuffer :=
      { numSamples := n
        channels := [fl ++ s₀.drop fl.length, fr ++ s₁.drop fl.length] } } := by
  obtain ⟨shared, hrecv, hshape, hval⟩ := messageReceived_receiver p m hrs (by
    intro c i hc hi
    rw [hk] at hi
    rw [hsh, pair_sample?, Option.isSome_iff_exists]
    interval_cases c
    · exact ⟨s₀[i], by simp [List.getElem?_eq_getElem (Nat.lt_of_lt_of_le hi h₀)]⟩
    · exact ⟨s₁[i], by simp [List.getElem?_eq_getElem (Nat.lt_of_lt_of_le hi h₁)]⟩)
  rw [hrecv]
  congr 2
  apply AudioBuffer.ext_sample?
  · refine hshape.symm.trans ?_
    rw [hsh]
    refine ⟨rfl, ?_⟩
    simp only [List.map_cons, List.map_nil, List.length_append, List.length_drop]
    rw [hfr, Nat.add_sub_cancel' h₀, Nat.add_sub_cancel' h₁]
  · intro c i
    rw [hval c i, hk, hsh, pair_sample?, pair_sample?]
    by_cases hi : i < fl.length
    · by_cases hc0 : c = 0
      · subst hc0
        have := hlay 0 i (by decide) hi
        simp only [Nat.add_zero] at this
        simp [hi, this, stereo_sample?_zero, List.getElem?_append_left hi]
      · by_cases hc1 : c = 1
        · subst hc1
          have := hlay 1 i (by decide) hi
          have hi' : i < fr.length := hfr ▸ hi
          simp [hi, this, stereo_sample?_one, List.getElem?_append_left hi']
        · have : ¬ c < 2 := by omega
          simp [this, hc0, hc1]
    · have hle : fl.length ≤ i := Nat.le_of_not_lt hi
      have hle' : fr.length ≤ i := hfr ▸ hle
      by_cases hc0 : c = 0
      · subst hc0
        simp [hi, List.getElem?_append_right hle, List.getElem?_drop, Nat.add_sub_cancel' hle]
      · by_cases hc1 : c = 1
        · subst hc1
          simp [hi, List.getElem?_append_right hle', List.getElem?_drop, hfr,
            Nat.add_sub_cancel' hle]
        · simp [hi, hc0, hc1]

/-- A connected receiver whose two staging planes hold at least `N` samples returns,
for any stereo block of size `N`, the first `N` samples of the left plane as they are
and the first `N` samples of the right plane each added to `0`. -/
theorem processBlock_receiver_stereo [Zero α] [SampleAdd α] (j : Nat → α) (p : Processor α)
    (t₀ t₁ l r : List α) (n : Nat) (hri : p.inOut = false) (hrc : p.isConnected = true)
    (hsh : p.sharedAudioBuffer = { numSamples := n, channels := [t₀, t₁] })
    (h₀ : l.length ≤ t₀.length) (h₁ : l.length ≤ t₁.length) :
    processBlock j p (stereo l r) =
      .ok (p, stereo (t₀.take l.length) ((t₁.take l.length).map (SampleAdd.add true 0))) := by
  obtain ⟨out, hout, hshape, hval⟩ := processBlock_receiver_connected j p (stereo l r) hri hrc (by
    intro c i hc hi
    rw [stereo_getNumChannels] at hc
    rw [stereo_getNumSamples] at hi
    rw [hsh, pair_sample?, Option.isSome_iff_exists]
    interval_cases c
    · exact ⟨t₀[i], by simp [List.getElem?_eq_getElem (Nat.lt_of_lt_of_le hi h₀)]⟩
    · exact ⟨t₁[i], by simp [List.getElem?_eq_getElem (Nat.lt_of_lt_of_le hi h₁)]⟩)
  rw [hout]
  congr 2
  simp only [stereo_getNumChannels, stereo_getNumSamples] at hval
  have hlen₀ : (t₀.take l.length).length = l.length := by simp [h₀]
  have hlen₁ : ((t₁.take l.length).map (SampleAdd.add true (0 : α))).length = l.length := by
    simp [h₁]
  apply eq_stereo_of_sample? (hlen₁.trans hlen₀.symm)
  · rw [hlen₀, ← hshape.1]; rfl
  · rw [hlen₀, ← hshape.2]; simp [AudioBuffer.clear, stereo]
  · intro i hi
    rw [hlen₀] at hi
    rw [hval 0 i, hsh, pair_sample?]
    simp [hi, List.getElem?_take]
  · intro i hi
    rw [hlen₀] at hi
    rw [hval 1 i, hsh, pair_sample?]
    simp [hi, List.getElem?_take]
  · intro c i h
    rw [hlen₀] at h
    rw [hval c i, if_neg h]

/-! ## Adding to `0.0f` -/

/-- C2: interleave/deinterleave round trip. For every stereo block `(l, r)` of `N`
samples and every receiver whose two staging planes hold at least `N` samples, the
frame a connected sender's `processBlock` builds from the block, given to the
receiver's `messageReceived`, leaves `l` and `r` in the first `N` samples of the
staging planes (every sample unchanged) and the rest of the planes as it was. -/
theorem interleave_deinterleave_round_trip [Zero α] [SampleAdd α] (l r s₀ s₁ : List α)
    (n : Nat) (sender receiver : Processor α) (j : Nat → α)
    (hr : r.length = l.length) (h₀ : l.length ≤ s₀.length) (h₁ : l.length ≤ s₁.length)
    (hs : sender.inOut = true) (hsc : sender.isConnected = true)
    (hrs : receiver.isServer = false)
    (hsh : receiver.sharedAudioBuffer = { numSamples := n, channels := [s₀, s₁] }) :
    ∃ frame, processBlock j sender (stereo l r) = .ok (sendMessage sender frame, stereo l r) ∧
      messageReceived receiver frame = .ok { receiver with sharedAudioBuffer :=
        { numSamples := n
          channels := [l ++ s₀.drop l.length, r ++ s₁.drop l.length] } } := by
  obtain ⟨raw, hsend, hlen, hraw⟩ :=
    processBlock_sender_connected j sender (stereo l r) (stereo_wf l r hr) hs hsc
  simp only [stereo_getNumChannels, stereo_getNumSamples] at hlen hraw
  exact ⟨⟨raw, 0⟩, hsend, messageReceived_frame receiver ⟨raw, 0⟩ l r s₀ s₁ n hrs hsh hr
    (frame_numSamples raw l.length hlen) hraw h₀ h₁⟩

/-- C3: sender frame layout. For every stereo block `(l, r)` of `N` samples, a
connected sender's `processBlock` hands exactly one block to `sendMessage`; it holds
`2 * N` floats and `2 * N * 4` bytes (no header, no trailing byte), with
`frame[2 * i] = l[i]` and `frame[2 * i + 1] = r[i]` for every `i < N`. -/
theorem sender_frame_layout [Zero α] [SampleAdd α] (l r : List α) (p : Processor α) (j : Nat → α)
    (hr : r.length = l.length) (hs : p.inOut = true) (hc : p.isConnected = true) :
    ∃ frame, processBlock j p (stereo l r) = .ok (sendMessage p frame, stereo l r) ∧
      frame.floats.length = 2 * l.length ∧ frame.getSize = 2 * l.length * 4 ∧
      ∀ i, i < l.length →
        frame.floats[2 * i]? = l[i]? ∧ frame.floats[2 * i + 1]? = r[i]? := by
  obtain ⟨raw, hsend, hlen, hraw⟩ :=
    processBlock_sender_connected j p (stereo l r) (stereo_wf l r hr) hs hc
  simp only [stereo_getNumChannels, stereo_getNumSamples] at hlen hraw
  refine ⟨⟨raw, 0⟩, hsend, by simp [hlen, Nat.mul_comm], ?_, ?_⟩
  · simp [MemoryBlock.getSize, sizeofFloat, hlen]
    omega
  · intro i hi
    have h0 := hraw 0 i (by decide) hi
    have h1 := hraw 1 i (by decide) hi
    rw [Nat.mul_comm] at h0 h1
    exact ⟨h0, h1⟩

/-- C4, as the code has it: in Receiver role (`InOut = false`) without a connection,
`processBlock` returns the block exactly as it came in (nothing is cleared) and
changes no member, both when `isConnected` is still `false` and after
`connectionLost`. -/
theorem receiver_not_connected_passes_through [Zero α] [SampleAdd α] (j : Nat → α)
    (p : Processor α) (buffer : AudioBuffer α) (hi : p.inOut = false) :
    (p.isConnected = false → processBlock j p buffer = .ok (p, buffer)) ∧
    (connectionLost p).inOut = false ∧ (connectionLost p).isConnected = false ∧
    processBlock j (connectionLost p) buffer = .ok (connectionLost p, buffer) := by
  refine ⟨fun hc => processBlock_not_connected j p buffer hc, hi, rfl, ?_⟩
  exact processBlock_not_connected j (connectionLost p) buffer rfl

/-- C4 fails as stated: a fresh receiver (never connected) given the one-sample block
`(5, 7)` returns `(5, 7)`, not silence. -/
theorem receiver_not_connected_counterexample :
    (Processor.initial : Processor Int).inOut = false ∧
    (Processor.initial : Processor Int).isConnected = false ∧
    processBlock (fun _ => 0) (Processor.initial : Processor Int) (stereo [5] [7]) =
      .ok (Processor.initial, stereo [5] [7]) ∧
    (stereo [5] [7] : AudioBuffer Int) ≠ stereo [0] [0] := by
  refine ⟨rfl, rfl, rfl, by decide⟩

/-- C5: sender pass-through. For every audio block, `processBlock` in Sender role
(`InOut = true`) returns the block unchanged and leaves the staging buffer unchanged;
when connected exactly one frame is handed to `sendMessage`, when not connected no
member changes at all. -/
theorem sender_pass_through [Zero α] [SampleAdd α] (j : Nat → α) (p : Processor α)
    (buffer : AudioBuffer α) (hwf : buffer.WF) (hs : p.inOut = true) :
    ∃ p', processBlock j p buffer = .ok (p', buffer) ∧
      p'.sharedAudioBuffer = p.sharedAudioBuffer ∧
      (p.isConnected = true → ∃ frame, p' = sendMessage p frame) ∧
      (p.isConnected = false → p' = p) := by
  cases hc : p.isConnected with
  | false =>
    exact ⟨p, processBlock_not_connected j p buffer hc, rfl, fun h => by simp at h, fun _ => rfl⟩
  | true =>
    obtain ⟨raw, hsend, _, _⟩ := processBlock_sender_connected j p buffer hwf hs hc
    exact ⟨_, hsend, rfl, fun _ => ⟨_, rfl⟩, fun h => by simp at h⟩

/-- C6, as the code has it: a message is dropped only when it is shorter than 8 bytes
(7 bytes, say): it carries no whole stereo sample and `messageReceived` changes no
member, so the staging buffer and `isConnected` are as before and the next frame is
staged as usual.  Whatever the message, `messageReceived` never changes `isConnected`,
and it treats the message as the frame made of its `getSize() / 8` whole stereo
samples, ignoring the bytes after them: on a receiver whose staging planes `s₀`, `s₁`
are long enough, those samples `(fl, fr)` replace the head of the planes. -/
theorem ragged_message_handling (p : Processor α) (m : MemoryBlock α) :
    (m.getSize < 8 → messageReceived p m = .ok p) ∧
    (∀ p', messageReceived p m = .ok p' → p'.isConnected = p.isConnected) ∧
    messageReceived p m =
      messageReceived p { floats := m.floats.take (2 * (m.getSize / 8)), extra := 0 } ∧
    ∀ (fl fr s₀ s₁ : List α) (n : Nat), p.isServer = false →
      p.sharedAudioBuffer = { numSamples := n, channels := [s₀, s₁] } →
      fr.length = fl.length → m.getSize / 8 = fl.length →
      (∀ i, i < fl.length → m.floats[2 * i]? = fl[i]? ∧ m.floats[2 * i + 1]? = fr[i]?) →
      fl.length ≤ s₀.length → fl.length ≤ s₁.length →
      messageReceived p m = .ok { p with sharedAudioBuffer :=
        { numSamples := n
          channels := [fl ++ s₀.drop fl.length, fr ++ s₁.drop fl.length] } } := by
  refine ⟨?_, ?_, ?_, ?_⟩
  · intro h
    have hk : m.getSize / (sizeofFloat * 2) = 0 := by
      simp only [sizeofFloat]; omega
    cases hsrv : p.isServer with
    | true => simp [messageReceived, hsrv, pure, Except.pure]
    | false =>
      obtain ⟨a, b, c, d, e⟩ := p
      simp only at hsrv
      subst hsrv
      simp [messageReceived, hk, deinterleaveLoop, forLoop, bind, Except.bind, pure, Except.pure]
  · intro p' h
    cases hsrv : p.isServer with
    | true =>
      simp [messageReceived, hsrv, pure, Except.pure] at h
      rw [← h]
    | false =>
      simp only [messageReceived, hsrv, bind, Except.bind, pure, Except.pure] at h
      cases hd : deinterleaveLoop m.floats (m.getSize / (sizeofFloat * 2)) p.sharedAudioBuffer with
      | error e => simp [hd] at h
      | ok s =>
        simp [hd] at h
        rw [← h]
  · have hle := getSize_div_le m
    simp only [sizeofFloat] at hle
    have hk : (MemoryBlock.mk (m.floats.take (2 * (m.getSize / 8))) 0).getSize /
        (sizeofFloat * 2) = m.getSize / 8 := by
      simp only [MemoryBlock.getSize, sizeofFloat, List.length_take, Nat.min_eq_left hle]
      simp
      omega
    have hloop : ∀ shared : AudioBuffer α,
        deinterleaveLoop (m.floats.take (2 * (m.getSize / 8))) (m.getSize / 8) shared =
          deinterleaveLoop m.floats (m.getSize / 8) shared := by
      intro shared
      unfold deinterleaveLoop
      apply forLoop_congr
      intro c hc t
      apply forLoop_congr
      intro i hi u
      have : i * 2 + c < 2 * (m.getSize / 8) := by omega
      simp [rawRead, List.getElem?_take, this]
    cases hsrv : p.isServer with
    | true => simp [messageReceived, hsrv]
    | false =>
      simp only [messageReceived, hsrv, hk, hloop]
      rfl
  · intro fl fr s₀ s₁ n hrs hsh hfr hk hlay h₀ h₁
    apply messageReceived_frame p m fl fr s₀ s₁ n hrs hsh hfr (by simpa [sizeofFloat] using hk)
      _ h₀ h₁
    intro c i hc hi
    obtain ⟨ha, hb⟩ := hlay i hi
    rw [Nat.mul_comm] at ha hb
    interval_cases c
    · exact ha
    · exact hb

/-- C6 fails as stated: a 9-byte message (two whole floats and one extra byte) is not
dropped; a receiver prepared for 4 samples stages its two floats at index 0 of the two
planes. -/
theorem malformed_frame_counterexample :
    (MemoryBlock.mk [(1 : Int), 2] 1).getSize = 9 ∧ 9 % 8 ≠ 0 ∧
    (prepareToPlay (fun _ _ => 0) (Processor.initial : Processor Int) 4).sharedAudioBuffer =
      { numSamples := 4, channels := [[0, 0, 0, 0], [0, 0, 0, 0]] } ∧
    messageReceived (prepareToPlay (fun _ _ => 0) (Processor.initial : Processor Int) 4)
        (MemoryBlock.mk [1, 2] 1) =
      .ok { (Processor.initial : Processor Int) with
        sharedAudioBuffer := { numSamples := 4, channels := [[1, 0, 0, 0], [2, 0, 0, 0]] } } := by
  refine ⟨rfl, by decide, rfl, rfl⟩

/-- C7, as the code has it: nothing is clamped, and accesses stay inside the staging
buffer only while the sizes fit.  With staging capacity `M` (as `prepareToPlay(M)`
sets it), a message of at most `M` whole stereo samples is staged without any access
outside a buffer and the capacity stays `M`; and a Receiver `processBlock` on a
well-formed block of at most 2 channels and at most `M` samples completes without any
access outside a buffer. -/
theorem accesses_in_bounds_within_capacity [Zero α] [SampleAdd α] (M : Nat)
    (junk : Nat → Nat → α)
    (p₀ : Processor α) :
    StagingCapacity (prepareToPlay junk p₀ M) M ∧
    (∀ (p : Processor α) (m : MemoryBlock α), StagingCapacity p M →
      m.getSize / (sizeofFloat * 2) ≤ M →
      ∃ p', messageReceived p m = .ok p' ∧ StagingCapacity p' M) ∧
    (∀ (p : Processor α) (j : Nat → α) (b : AudioBuffer α), StagingCapacity p M →
      p.inOut = false → b.WF → b.getNumChannels ≤ 2 → b.getNumSamples ≤ M →
      ∃ out, processBlock j p b = .ok (p, out)) := by
  refine ⟨prepareToPlay_capacity junk p₀ M, ?_, ?_⟩
  · intro p m hcap hk
    cases hsrv : p.isServer with
    | true => exact ⟨p, by simp [messageReceived, hsrv, pure, Except.pure], hcap⟩
    | false =>
      obtain ⟨shared, hrecv, hshape, _⟩ := messageReceived_receiver p m hsrv
        (fun c i hc hi => hcap.has_sample hc (Nat.lt_of_lt_of_le hi hk))
      exact ⟨_, hrecv, hcap.of_sameShape hshape⟩
  · intro p j b hcap hri _ hch hN
    cases hc : p.isConnected with
    | false => exact ⟨b, processBlock_not_connected j p b hc⟩
    | true =>
      obtain ⟨out, hout, _, _⟩ := processBlock_receiver_connected j p b hri hc
        (fun c i hc hi => hcap.has_sample (Nat.lt_of_lt_of_le hc hch)
          (Nat.lt_of_lt_of_le hi hN))
      exact ⟨out, hout⟩

/-- C7 fails as stated: after `prepareToPlay(1)` a 16-byte frame (2 samples per
channel) makes `messageReceived` write staging index 1 of channel 0, and a connected
Receiver `processBlock` on a 2-sample block reads staging index 1 of channel 0; both
lie outside the 1-sample planes. -/
theorem oversize_not_clamped_counterexample :
    (MemoryBlock.mk [(1 : Int), 2, 3, 4] 0).getSize = 16 ∧
    messageReceived (prepareToPlay (fun _ _ => 0) (Processor.initial : Processor Int) 1)
        (MemoryBlock.mk [1, 2, 3, 4] 0) = .error ⟨.staging, 0, 1⟩ ∧
    processBlock (fun _ => 0)
        (connectionMade (prepareToPlay (fun _ _ => 0) (Processor.initial : Processor Int) 1))
        (stereo [0, 0] [0, 0]) = .error ⟨.staging, 0, 1⟩ := by
  refine ⟨rfl, rfl, rfl⟩

/-- C8: `prepareToPlay(rate, M)` leaves a staging buffer of exactly 2 channel planes of
`M` samples, every sample zero, whatever the buffer held before and whatever a
reallocation leaves in memory; hence, `0 + 0` being `0`, a connected receiver that has
staged nothing since returns silence for every stereo block of at most `M` samples. -/
theorem prepareToPlay_sizes_and_zeroes [Zero α] [SampleAdd α] (junk : Nat → Nat → α)
    (p : Processor α) (M : Nat) :
    (prepareToPlay junk p M).sharedAudioBuffer =
      { numSamples := M, channels := [List.replicate M 0, List.replicate M 0] } ∧
    ∀ (j : Nat → α) (l r : List α), SampleAdd.add true (0 : α) 0 = 0 →
      p.inOut = false → p.isConnected = true → l.length ≤ M →
      processBlock j (prepareToPlay junk p M) (stereo l r) =
        .ok (prepareToPlay junk p M,
          stereo (List.replicate l.length 0) (List.replicate l.length 0)) := by
  refine ⟨prepareToPlay_shared junk p M, ?_⟩
  intro j l r h00 hri hrc hM
  have := processBlock_receiver_stereo j (prepareToPlay junk p M) _ _ l r M hri hrc
    (prepareToPlay_shared junk p M) (by simpa using hM) (by simpa using hM)
  rw [this]
  simp [List.take_replicate, hM, h00]

/-- C9, as the code has it: `parameterChanged` changes no member, whatever the
parameter id and value; `isServer` and `isConnected` stay as they were. -/
theorem parameterChanged_changes_nothing (p : Processor α) (parameterID : String)
    (newValue : ℚ) : parameterChanged p parameterID newValue = p := by
  unfold parameterChanged
  split
  · split <;> rfl
  · rfl

/-- C9 fails as stated: a connected receiver (`isServer = false`) whose `InOut`
parameter has just become `true` is notified with the value 1; afterwards the
connection is still up and `isServer` is still `false`, although `1 > 0.5` and `InOut`
is `true`. -/
theorem role_change_counterexample :
    exampleReceiver.isServer = false ∧ exampleReceiver.isConnected = true ∧
    (1 : ℚ) > 1 / 2 ∧
    parameterChanged { exampleReceiver with inOut := true } "InOut" 1 =
      { inOut := true, isServer := false, isConnected := true,
        sharedAudioBuffer := { numSamples := 0, channels := [] }, sent := [] } := by
  refine ⟨rfl, rfl, by norm_num, ?_⟩
  simp [parameterChanged, exampleReceiver, connectionMade, deferredInit, Processor.initial]

theorem take_append_drop_stale (fl s : List α) (N : Nat) (hk : fl.length ≤ N) :
    (fl ++ s.drop fl.length).take N = fl ++ (s.take N).drop fl.length := by
  rw [List.take_append_eq_append_take, List.take_of_length_le hk, List.take_drop,
    Nat.add_sub_cancel' hk]

/-- C10, as the code has it: short frames leave a stale tail. For a receiver
(`isServer = false`) whose staging planes `s₀`, `s₁` hold `M` samples and a frame `m` of
`k ≤ M` stereo samples `(fl, fr)`, `messageReceived` puts `fl` and `fr` at indices
`0 .. k-1` of the planes and keeps indices `k .. M-1`; a following connected Receiver
`processBlock` on a stereo block of size `N`, `k < N ≤ M`, then returns in the left
channel the frame in positions `0 .. k-1` and the samples staged before in positions
`k .. N-1`, and in the right channel the same positions with every sample `x` as
`0 + x`, added with denormals disabled. -/
theorem short_frame_leaves_stale_tail [Zero α] [SampleAdd α] (M : Nat) (p : Processor α)
    (m : MemoryBlock α) (fl fr s₀ s₁ : List α)
    (hrs : p.isServer = false)
    (hsh : p.sharedAudioBuffer = { numSamples := M, channels := [s₀, s₁] })
    (h₀ : s₀.length = M) (h₁ : s₁.length = M)
    (hfr : fr.length = fl.length) (hsize : m.getSize = 8 * fl.length)
    (hlay : ∀ i, i < fl.length → m.floats[2 * i]? = fl[i]? ∧ m.floats[2 * i + 1]? = fr[i]?)
    (hkM : fl.length ≤ M) :
    messageReceived p m = .ok { p with sharedAudioBuffer :=
      { numSamples := M
        channels := [fl ++ s₀.drop fl.length, fr ++ s₁.drop fl.length] } } ∧
    ∀ (N : Nat) (l' r' : List α) (j : Nat → α), p.inOut = false → p.isConnected = true →
      fl.length < N → N ≤ M → l'.length = N →
      processBlock j { p with sharedAudioBuffer :=
          { numSamples := M
            channels := [fl ++ s₀.drop fl.length, fr ++ s₁.drop fl.length] } }
          (stereo l' r') =
        .ok ({ p with sharedAudioBuffer :=
            { numSamples := M
              channels := [fl ++ s₀.drop fl.length, fr ++ s₁.drop fl.length] } },
          stereo (fl ++ (s₀.take N).drop fl.length)
            ((fr ++ (s₁.take N).drop fl.length).map (SampleAdd.add true 0))) := by
  constructor
  · apply messageReceived_frame p m fl fr s₀ s₁ M hrs hsh hfr
    · simp only [hsize, sizeofFloat]; omega
    · intro c i hc hi
      obtain ⟨ha, hb⟩ := hlay i hi
      rw [Nat.mul_comm] at ha hb
      interval_cases c
      · exact ha
      · exact hb
    · omega
    · omega
  · intro N l' r' j hri hrc hkN hNM hl'
    have := processBlock_receiver_stereo j
      { p with sharedAudioBuffer :=
        { numSamples := M
          channels := [fl ++ s₀.drop fl.length, fr ++ s₁.drop fl.length] } }
      _ _ l' r' M hri hrc rfl
      (by simp only [List.length_append, List.length_drop]; omega)
      (by simp only [List.length_append, List.length_drop]; omega)
    rw [this, hl', take_append_drop_stale fl s₀ N (Nat.le_of_lt hkN)]
    have hk' : fr.length ≤ N := by omega
    have := take_append_drop_stale fr s₁ N hk'
    rw [hfr] at this
    rw [this]

/-- C10 fails as stated: a receiver with staging planes `(1.0, 1.0)` and
`(1.0, 2^-149)` stages the one-sample frame `(1.0, -0.0)`, which leaves the right plane
`(-0.0, 2^-149)`; its `processBlock` on a 2-sample block then returns the right channel
`(+0.0, +0.0)`: neither the new `-0.0` nor the stale `2^-149`. -/
theorem short_frame_counterexample :
    messageReceived
        { floatReceiver with sharedAudioBuffer :=
          { numSamples := 2
            channels := [[F32.one, F32.one], [F32.one, F32.minDenormal]] } }
        ⟨[F32.one, F32.negZero], 0⟩ =
      .ok { floatReceiver with sharedAudioBuffer :=
        { numSamples := 2
          channels := [[F32.one, F32.one], [F32.negZero, F32.minDenormal]] } } ∧
    processBlock (fun _ => 0)
        { floatReceiver with sharedAudioBuffer :=
          { numSamples := 2
            channels := [[F32.one, F32.one], [F32.negZero, F32.minDenormal]] } }
        (stereo [0, 0] [0, 0]) =
      .ok ({ floatReceiver with sharedAudioBuffer :=
          { numSamples := 2
            channels := [[F32.one, F32.one], [F32.negZero, F32.minDenormal]] } },
        stereo [F32.one, F32.one] [F32.posZero, F32.posZero]) ∧
    (stereo [F32.one, F32.one] [F32.posZero, F32.posZero] : AudioBuffer F32) ≠
      stereo [F32.one, F32.one] [F32.negZero, F32.minDenormal] := by
  refine ⟨rfl, rfl, by decide⟩

/-! ## Instances of the theorems on concrete blocks -/

/-- C2 on the 2-sample block `([1, 2], [3, 4])` and 3-sample staging planes. -/
theorem interleave_deinterleave_round_trip_witness :
    ∃ frame,
      processBlock (fun _ => 0) exampleSender (stereo [1, 2] [3, 4]) =
        .ok (sendMessage exampleSender frame, stereo [1, 2] [3, 4]) ∧
      messageReceived
          (staged3 [5, 5, 5] [6, 6, 6]) frame =
        .ok (staged3 [1, 2, 5] [3, 4, 6]) :=
  interleave_deinterleave_round_trip [1, 2] [3, 4] [5, 5, 5] [6, 6, 6] 3 exampleSender
    (staged3 [5, 5, 5] [6, 6, 6])
    (fun _ => 0) rfl (by decide) (by decide) rfl rfl rfl rfl

/-- C3 on the 2-sample block `([1, 2], [3, 4])`. -/
theorem sender_frame_layout_witness :
    ∃ frame : MemoryBlock Int,
      processBlock (fun _ => 0) exampleSender (stereo [1, 2] [3, 4]) =
        .ok (sendMessage exampleSender frame, stereo [1, 2] [3, 4]) ∧
      frame.floats.length = 2 * 2 ∧ frame.getSize = 2 * 2 * 4 ∧
      ∀ i, i < 2 →
        frame.floats[2 * i]? = [1, 2][i]? ∧ frame.floats[2 * i + 1]? = [3, 4][i]? :=
  sender_frame_layout [1, 2] [3, 4] exampleSender (fun _ => 0) rfl rfl rfl

/-- C4 (amended) on a fresh receiver and the block `([5], [7])`. -/
theorem receiver_not_connected_passes_through_witness :
    ((Processor.initial : Processor Int).isConnected = false →
      processBlock (fun _ => 0) (Processor.initial : Processor Int) (stereo [5] [7]) =
        .ok (Processor.initial, stereo [5] [7])) ∧
    (connectionLost (Processor.initial : Processor Int)).inOut = false ∧
    (connectionLost (Processor.initial : Processor Int)).isConnected = false ∧
    processBlock (fun _ => 0) (connectionLost (Processor.initial : Processor Int))
        (stereo [5] [7]) =
      .ok (connectionLost Processor.initial, stereo [5] [7]) :=
  receiver_not_connected_passes_through (fun _ => 0) Processor.initial (stereo [5] [7]) rfl

/-- C5 on the connected sender and the block `([1, 2], [3, 4])`. -/
theorem sender_pass_through_witness :
    ∃ p', processBlock (fun _ => 0) exampleSender (stereo [1, 2] [3, 4]) =
        .ok (p', stereo [1, 2] [3, 4]) ∧
      p'.sharedAudioBuffer = exampleSender.sharedAudioBuffer ∧
      (exampleSender.isConnected = true → ∃ frame, p' = sendMessage exampleSender frame) ∧
      (exampleSender.isConnected = false → p' = exampleSender) :=
  sender_pass_through (fun _ => 0) exampleSender (stereo [1, 2] [3, 4])
    (stereo_wf [1, 2] [3, 4] rfl) rfl

/-- C6 (amended) on a 7-byte message (one float and 3 more bytes), which is dropped,
and on a 9-byte message (two floats and 1 more byte), which is staged. -/
theorem ragged_message_handling_witness :
    (MemoryBlock.mk [(1 : Int)] 3).getSize = 7 ∧
    messageReceived exampleReceiver (MemoryBlock.mk [1] 3) = .ok exampleReceiver ∧
    (MemoryBlock.mk [(1 : Int), 2] 1).getSize = 9 ∧
    messageReceived (staged3 [5, 5, 5] [6, 6, 6]) (MemoryBlock.mk [1, 2] 1) =
      .ok (staged3 [1, 5, 5] [2, 6, 6]) :=
  ⟨rfl, (ragged_message_handling exampleReceiver (MemoryBlock.mk [1] 3)).1 (by decide), rfl,
    (ragged_message_handling (staged3 [5, 5, 5] [6, 6, 6]) (MemoryBlock.mk [1, 2] 1)).2.2.2
      [1] [2] [5, 5, 5] [6, 6, 6] 3 rfl rfl rfl rfl (by decide) (by decide) (by decide)⟩

/-- C7 (amended) with capacity 2: a 16-byte frame and a 2-sample block. -/
theorem accesses_in_bounds_within_capacity_witness :
    (∃ p', messageReceived (prepareToPlay (fun _ _ => 9) exampleReceiver 2)
        (MemoryBlock.mk [1, 2, 3, 4] 0) = .ok p' ∧ StagingCapacity p' 2) ∧
    ∃ out, processBlock (fun _ => 0) (prepareToPlay (fun _ _ => 9) exampleReceiver 2)
        (stereo [7, 7] [8, 8]) = .ok (prepareToPlay (fun _ _ => 9) exampleReceiver 2, out) :=
  ⟨(accesses_in_bounds_within_capacity 2 (fun _ _ => 9) exampleReceiver).2.1 _
      (MemoryBlock.mk [1, 2, 3, 4] 0)
      (accesses_in_bounds_within_capacity 2 (fun _ _ => 9) exampleReceiver).1 (by decide),
    (accesses_in_bounds_within_capacity 2 (fun _ _ => 9) exampleReceiver).2.2 _ (fun _ => 0)
      (stereo [7, 7] [8, 8])
      (accesses_in_bounds_within_capacity 2 (fun _ _ => 9) exampleReceiver).1 rfl
      (stereo_wf [7, 7] [8, 8] rfl) (by decide) (by decide)⟩

/-- C8 with capacity 4 and `float` samples: `0.0f + 0.0f` is `0.0f`, and a 2-sample
block comes back silent. -/
theorem prepareToPlay_sizes_and_zeroes_witness :
    SampleAdd.add true (0 : F32) 0 = 0 ∧
    processBlock (fun _ => 0) (prepareToPlay (fun _ _ => F32.one) floatReceiver 4)
        (stereo [F32.one, F32.one] [F32.two, F32.two]) =
      .ok (prepareToPlay (fun _ _ => F32.one) floatReceiver 4, stereo [0, 0] [0, 0]) :=
  ⟨rfl, (prepareToPlay_sizes_and_zeroes (fun _ _ => F32.one) floatReceiver 4).2 (fun _ => 0)
    [F32.one, F32.one] [F32.two, F32.two] rfl rfl rfl (by decide)⟩

/-- C10 (amended) with 3-sample `float` planes, the 1-sample frame `(0.5, 2.0)` and a
2-sample block. -/
theorem short_frame_leaves_stale_tail_witness :
    messageReceived
        { floatReceiver with sharedAudioBuffer :=
          { numSamples := 3
            channels := [[F32.one, F32.one, F32.one], [F32.one, F32.one, F32.one]] } }
        ⟨[F32.half, F32.two], 0⟩ =
      .ok { floatReceiver with sharedAudioBuffer :=
        { numSamples := 3
          channels := [[F32.half, F32.one, F32.one], [F32.two, F32.one, F32.one]] } } ∧
    processBlock (fun _ => 0)
        { floatReceiver with sharedAudioBuffer :=
          { numSamples := 3
            channels := [[F32.half, F32.one, F32.one], [F32.two, F32.one, F32.one]] } }
        (stereo [0, 0] [0, 0]) =
      .ok ({ floatReceiver with sharedAudioBuffer :=
          { numSamples := 3
            channels := [[F32.half, F32.one, F32.one], [F32.two, F32.one, F32.one]] } },
        stereo [F32.half, F32.one] [F32.two, F32.one]) :=
  have h := short_frame_leaves_stale_tail 3
    { floatReceiver with sharedAudioBuffer :=
      { numSamples := 3
        channels := [[F32.one, F32.one, F32.one], [F32.one, F32.one, F32.one]] } }
    ⟨[F32.half, F32.two], 0⟩ [F32.half] [F32.two] [F32.one, F32.one, F32.one]
    [F32.one, F32.one, F32.one] rfl rfl rfl rfl rfl rfl (by decide) (by decide)
  ⟨h.1, h.2 2 [0, 0] [0, 0] (fun _ => 0) rfl rfl (by decide) (by decide) rfl⟩

end ClaudeInterConnect
